import Mathlib

/-!
Shallow embedding of the juno AST core (src/unsupported/juno/crates/juno_ast/src/lib.rs).

Nodes and list cells live in a garbage-collected arena (`Context`); a node
reference `&'gc Node<'gc>` is modelled as an index (`Nat`) into the arena's
node store, and a `NodeListElement` pointer as an index into the cell store.
`null` pointers become `Option.none`.  Machine addresses thus become indices,
so "identity of the allocation" is index equality.

The mutating visitor `&mut V : VisitorMut` is modelled as a state-passing
function; the visitor itself is modelled as heap-independent (its own
allocations happen through the `GCLock` and are outside the traversal code
under study), while every traversal function threads the heap explicitly so
that the allocations performed *by the traversal itself* (EmptyStatement
placeholders, rebuilt list cells) are observable.

Rust `panic!` is modelled by an `Option` result on the functions that contain
a panic path (`None` = panic); functions with no panic path keep a total type.
-/

namespace Juno

/-- Source location (juno_support::source_manager::SourceLoc): line and column. -/
structure SourceLoc where
  line : Nat
  col : Nat
  deriving DecidableEq, Repr

/-- Sentinel invalid location, `SourceLoc::invalid()`. -/
def SourceLoc.invalid : SourceLoc := ⟨0, 0⟩

/-- Source range attached to every node: file id plus start and end locations.
The Rust field named `end` is rendered `endLoc` (keyword clash). -/
structure SourceRange where
  file : Nat
  start : SourceLoc
  endLoc : SourceLoc
  deriving DecidableEq, Repr

/-- Sentinel invalid range (`TemplateMetadata::default()`), file id 0 standing
for `SourceId::INVALID`. -/
def invalidRange : SourceRange := ⟨0, SourceLoc.invalid, SourceLoc.invalid⟩

/-- Node kinds needed by the claims.  The kind catalog is an open, generated
enumeration (kind.rs); only the two kinds the claims mention are carried.
The `f64` payload of `NumericLiteral` is opaque to every claim, so it is
represented by its bit pattern as a `Nat`. -/
inductive NodeKind where
  | EmptyStatement
  | NumericLiteral (value : Nat)
  deriving DecidableEq, Repr

/-- Payload of one arena node: kind tag plus `NodeMetadata.range`. -/
structure NodeData where
  kind : NodeKind
  range : SourceRange
  deriving DecidableEq, Repr

/-- Linked-list cell (context::NodeListElement): one node reference `inner`
and the `next` pointer (`none` = null). -/
structure NodeListElement where
  inner : Nat
  next : Option Nat
  deriving DecidableEq, Repr

/-- Arena owned by `Context`: the node store and the list-cell store.
A node reference is an index into `nodes`; a cell pointer an index into
`cells`. -/
structure Heap where
  nodes : List NodeData
  cells : List NodeListElement
  deriving DecidableEq, Repr

/-- Dereference a node.  References handed out by the `GCLock` are always
in bounds; the default is only for totality. -/
def Heap.getNode (h : Heap) (r : Nat) : NodeData :=
  h.nodes.getD r ⟨NodeKind.EmptyStatement, invalidRange⟩

/-- Allocate one node in the arena, returning the new heap and the fresh
reference (the next free index). -/
def Heap.allocNode (h : Heap) (d : NodeData) : Heap × Nat :=
  ({ h with nodes := h.nodes ++ [d] }, h.nodes.length)

/-- Modelled from the spec: `GCLock::append_list_element` lives in context.rs,
which is not under src/.  Spec 4.2: allocate a new list cell holding `node`
with a null next pointer, and if a previous cell is given, link its next
pointer to the new cell; return the new cell. -/
def Heap.appendListElement (h : Heap) (prev : Option Nat) (node : Nat) : Heap × Nat :=
  let idx := h.cells.length
  let cells₁ := h.cells ++ [⟨node, none⟩]
  let cells₂ :=
    match prev with
    | none => cells₁
    | some p =>
      match cells₁[p]? with
      | some c => cells₁.set p ⟨c.inner, some idx⟩
      | none => cells₁
  ({ h with cells := cells₂ }, idx)

/-- NodeList (lib.rs 176-181): just the head pointer; `none` = null = empty. -/
structure NodeList where
  head : Option Nat
  deriving DecidableEq, Repr

/-- NodeListIterator (lib.rs 252-257): the upcoming element pointer. -/
structure NodeListIterator where
  ptr : Option Nat
  deriving DecidableEq, Repr

/-- Iterator step (lib.rs 259-274): null pointer ends the iteration, otherwise
yield the cell's node and advance to `next`.  A dangling pointer (impossible
for references produced by the `GCLock`) also ends the iteration. -/
def NodeListIterator.next (h : Heap) (it : NodeListIterator) : Option (Nat × NodeListIterator) :=
  match it.ptr with
  | none => none
  | some p =>
    match h.cells[p]? with
    | none => none
    | some c => some (c.inner, ⟨c.next⟩)

/-- NodeList::iter (lib.rs 219-221): a fresh iterator starting at the stored
head, so every call restarts the iteration. -/
def NodeList.iter (l : NodeList) : NodeListIterator := ⟨l.head⟩

/-- Run an iterator to exhaustion, fuelled (the linked chains built by
`append_list_element` always advance to strictly larger cell indices, so the
cell count bounds every chain). -/
def runIter (h : Heap) : Nat → NodeListIterator → List Nat
  | 0, _ => []
  | fuel + 1, it =>
    match it.next h with
    | none => []
    | some (n, it₂) => n :: runIter h fuel it₂

/-- The sequence a full iteration of the list yields. -/
def NodeList.toList (h : Heap) (l : NodeList) : List Nat :=
  runIter h h.cells.length l.iter

/-- NodeList::is_empty (lib.rs 225-227): head pointer null check, O(1). -/
def NodeList.isEmpty (l : NodeList) : Bool := l.head.isNone

/-- NodeList::head (lib.rs 230-232): `self.iter().next()`. -/
def NodeList.headNode (h : Heap) (l : NodeList) : Option Nat :=
  (l.iter.next h).map Prod.fst

/-- NodeList::len (lib.rs 237-239): `self.iter().count()`. -/
def NodeList.len (h : Heap) (l : NodeList) : Nat := (l.toList h).length

/-- Tail loop of NodeList::from_iter (lib.rs 206-209): exhaust the iterator,
appending each node after the previous cell. -/
def NodeList.fromIterAux : Heap → Nat → List Nat → Heap
  | h, _, [] => h
  | h, prev, n :: rest =>
    let hi := h.appendListElement (some prev) n
    NodeList.fromIterAux hi.1 hi.2 rest

/-- NodeList::from_iter (lib.rs 194-217): empty input yields the empty list
with no allocation; otherwise allocate the head cell and chain the rest. -/
def NodeList.fromIter (h : Heap) : List Nat → NodeList × Heap
  | [] => (⟨none⟩, h)
  | first :: rest =>
    let hh := h.appendListElement none first
    (⟨some hh.2⟩, NodeList.fromIterAux hh.1 hh.2 rest)

/-- TransformResult (lib.rs 77-93). -/
inductive TransformResult (T : Type) where
  | Unchanged
  | Removed
  | Changed (t : T)
  | Expanded (ts : List T)
  deriving DecidableEq, Repr

/-- Path (lib.rs 54-62): parent node reference and field identifier
(NodeField modelled as an opaque index). -/
structure Path where
  parent : Nat
  field : Nat
  deriving DecidableEq, Repr

/-- VisitorMut (lib.rs 95-104): `&mut V` state-passing call on a node with an
optional path, deciding a `TransformResult` over node references. -/
def VisitorMut (σ : Type) := σ → Nat → Option Path → σ × TransformResult Nat

/-- Node::visit_mut (lib.rs 412-426), the root-level mutating driver.
`none` models the `panic!` on `Expanded`; `some (s, root?)` carries the
visitor state and the resulting tree (`none` inside = tree removed). -/
def Node.visitMut {σ : Type} (vis : VisitorMut σ) (s : σ) (n : Nat) (p : Option Path) :
    Option (σ × Option Nat) :=
  match vis s n p with
  | (s₂, TransformResult.Unchanged) => some (s₂, some n)
  | (s₂, TransformResult.Removed) => some (s₂, none)
  | (s₂, TransformResult.Changed m) => some (s₂, some m)
  | (_, TransformResult.Expanded _) => none

/-- Modelled from the spec: `builder::EmptyStatement::build_template` is
generated code (kind.rs/def.rs), not under src/.  Spec 4.3: a builder
allocates a fresh node of its kind, copying the template's fields — here just
the metadata range. -/
def buildEmptyStatement (h : Heap) (r : SourceRange) : Heap × Nat :=
  h.allocNode ⟨NodeKind.EmptyStatement, r⟩

/-- NodeChild for &'gc Node visit_child_mut (lib.rs 646-670), the required
single-child case: a `Removed` report is intercepted and replaced by a fresh
EmptyStatement whose range is the original child's start collapsed to zero
width; every other visitor result (`result => result`) is returned as is. -/
def visitChildMutNode {σ : Type} (h : Heap) (vis : VisitorMut σ) (s : σ) (self : Nat)
    (p : Path) : σ × TransformResult Nat × Heap :=
  match vis s self (some p) with
  | (s₂, TransformResult.Removed) =>
    let orig := (h.getNode self).range
    let hb := buildEmptyStatement h ⟨orig.file, orig.start, orig.start⟩
    (s₂, TransformResult.Changed hb.2, hb.1)
  | (s₂, r) => (s₂, r, h)

/-- NodeChild visit_child_mut for optional children: `Option<T>` (lib.rs
574-597) and `&Option<&'gc Node>` (lib.rs 611-634) have the same body, here
embedded once for `T` a node reference.  An absent field is `Unchanged`
without calling the visitor; a present child is visited through the inner
(required-child) `visit_child_mut`; `Expanded` from the inner visit panics
(`none`).  Note the `Removed => Changed(None)` arm is kept exactly as in the
source even though the inner visit never returns `Removed`. -/
def visitChildMutOptNode {σ : Type} (h : Heap) (vis : VisitorMut σ) (s : σ)
    (self : Option Nat) (p : Path) : Option (σ × TransformResult (Option Nat) × Heap) :=
  match self with
  | none => some (s, TransformResult.Unchanged, h)
  | some inner =>
    match visitChildMutNode h vis s inner p with
    | (s₂, TransformResult.Unchanged, h₂) => some (s₂, TransformResult.Unchanged, h₂)
    | (s₂, TransformResult.Removed, h₂) => some (s₂, TransformResult.Changed none, h₂)
    | (s₂, TransformResult.Changed m, h₂) => some (s₂, TransformResult.Changed (some m), h₂)
    | (_, TransformResult.Expanded _, _) => none

/-- Second loop of NodeList visit_child_mut (lib.rs 718-728): after the first
change, visit every remaining element, copying through unchanged ones and
splicing changed/expanded/removed ones into the rebuilt vector. -/
def fillPhase {σ : Type} (vis : VisitorMut σ) (p : Path) : σ → List Nat → σ × List Nat
  | s, [] => (s, [])
  | s, e :: rest =>
    match vis s e (some p) with
    | (s₂, TransformResult.Unchanged) =>
      let t := fillPhase vis p s₂ rest
      (t.1, e :: t.2)
    | (s₂, TransformResult.Removed) => fillPhase vis p s₂ rest
    | (s₂, TransformResult.Changed n) =>
      let t := fillPhase vis p s₂ rest
      (t.1, n :: t.2)
    | (s₂, TransformResult.Expanded ns) =>
      let t := fillPhase vis p s₂ rest
      (t.1, ns ++ t.2)

/-- First loop of NodeList visit_child_mut (lib.rs 693-731): scan while every
element reports `Unchanged`; `pre` accumulates the elements already scanned,
which equals `self.iter().take(index)` in the source since exactly the
unchanged ones have been passed.  On the first non-`Unchanged` report the
rebuilt vector is completed by `fillPhase`.  `none` = no change found. -/
def scanPhase {σ : Type} (vis : VisitorMut σ) (p : Path) :
    σ → List Nat → List Nat → σ × Option (List Nat)
  | s, [], _ => (s, none)
  | s, e :: rest, pre =>
    match vis s e (some p) with
    | (s₂, TransformResult.Unchanged) => scanPhase vis p s₂ rest (pre ++ [e])
    | (s₂, TransformResult.Removed) =>
      let t := fillPhase vis p s₂ rest
      (t.1, some (pre ++ t.2))
    | (s₂, TransformResult.Changed n) =>
      let t := fillPhase vis p s₂ rest
      (t.1, some (pre ++ n :: t.2))
    | (s₂, TransformResult.Expanded ns) =>
      let t := fillPhase vis p s₂ rest
      (t.1, some (pre ++ ns ++ t.2))

/-- NodeChild for NodeList visit_child_mut (lib.rs 686-732): if the scan finds
no change the original list is reported `Unchanged` with the heap untouched;
otherwise the rebuilt vector is materialized through `NodeList::from_iter`
and reported `Changed`. -/
def NodeList.visitChildMut {σ : Type} (h : Heap) (vis : VisitorMut σ) (s : σ)
    (l : NodeList) (p : Path) : σ × TransformResult NodeList × Heap :=
  match scanPhase vis p s (l.toList h) [] with
  | (s₂, none) => (s₂, TransformResult.Unchanged, h)
  | (s₂, some r) =>
    let lh := NodeList.fromIter h r
    (s₂, TransformResult.Changed lh.1, lh.2)

/-- template::NumericLiteral (used by tests::test_node_ref, lib.rs 760-773):
metadata range plus the numeric value. -/
structure TemplateNumericLiteral where
  range : SourceRange
  value : Nat
  deriving DecidableEq, Repr

/-- Modelled from the spec: `builder::NumericLiteral::build_template` is
generated code (kind.rs/def.rs), not under src/.  Spec 4.3: allocate a fresh
node duplicating the template's fields. -/
def buildNumericLiteral (h : Heap) (t : TemplateNumericLiteral) : Heap × Nat :=
  h.allocNode ⟨NodeKind.NumericLiteral t.value, t.range⟩

/-- Modelled from the spec: `NodePtr`'s PartialEq lives in context.rs, not
under src/.  Equality of node references is by storage address, here the
arena index. -/
def nodePtrEq (a b : Nat) : Bool := a == b

/-- Modelled from the spec: `NodePtr`'s Hash lives in context.rs, not under
src/.  Hashing is derived from the storage address alone. -/
def nodePtrHash (a : Nat) : Nat := a

/-- Modelled from the spec: the `GCLock` acquisition discipline lives in
context.rs, not under src/.  Module doc (lib.rs 14-19) and spec 4.1/5: per
thread, at most one guard may be outstanding; acquiring while one is
outstanding is a fatal error.  The per-thread state is the count of
outstanding guards. -/
inductive GuardOp where
  | acquire
  | release
  deriving DecidableEq, Repr

/-- One guard operation on the per-thread outstanding count: acquiring with a
guard already outstanding panics (`none`); releasing drops the count. -/
def guardStep : Nat → GuardOp → Option Nat
  | c, GuardOp.acquire => if c = 0 then some 1 else none
  | c, GuardOp.release => some (c - 1)

/-- Run a sequence of guard operations from a starting count, propagating the
panic. -/
def guardRun : Nat → List GuardOp → Option Nat
  | c, [] => some c
  | c, op :: ops =>
    match guardStep c op with
    | none => none
    | some c₂ => guardRun c₂ ops

/-- Specification-side splice semantics, following the spec's words for the
Child List mutating traversal: each element contributes itself when
unchanged, nothing when removed, its replacement when changed, and the
spliced-in elements when expanded — in place and in order.  Used to compare
the code's list traversal against the spec (claim C3). -/
def spliceSpec (vis : Nat → TransformResult Nat) : List Nat → List Nat
  | [] => []
  | e :: rest =>
    (match vis e with
     | TransformResult.Unchanged => [e]
     | TransformResult.Removed => []
     | TransformResult.Changed n => [n]
     | TransformResult.Expanded ns => ns) ++ spliceSpec vis rest

/-- Lift a stateless per-node decision to a `VisitorMut` over `Unit` state. -/
def statelessVis (vis : Nat → TransformResult Nat) : VisitorMut Unit :=
  fun _ n _ => ((), vis n)

/-- Concrete one-node heap for witnesses: a numeric literal spanning
file 3, (1,2)-(4,5). -/
def hW : Heap := ⟨[⟨NodeKind.NumericLiteral 7, ⟨3, ⟨1, 2⟩, ⟨4, 5⟩⟩⟩], []⟩

/-- Concrete path for witnesses. -/
def pW : Path := ⟨0, 0⟩

/-- Visitor that always reports `Removed`. -/
def visRemoveW : VisitorMut Unit := fun s _ _ => (s, TransformResult.Removed)

/-- Visitor that always reports `Expanded([1, 2])`. -/
def visExpandW : VisitorMut Unit := fun s _ _ => (s, TransformResult.Expanded [1, 2])

/-- Visitor that always reports `Unchanged`. -/
def visKeepW : VisitorMut Unit := fun s _ _ => (s, TransformResult.Unchanged)

/-- Concrete heap holding the three-element list [1, 2, 3] as linked cells. -/
def hC3 : Heap := ⟨[], [⟨1, some 1⟩, ⟨2, some 2⟩, ⟨3, none⟩]⟩

/-- The list headed at cell 0 of `hC3`. -/
def lC3 : NodeList := ⟨some 0⟩

/-- Stateless decision for the splice witness: element 2 expands to [7, 8],
everything else is untouched. -/
def visSpliceW : Nat → TransformResult Nat :=
  fun n => if n = 2 then TransformResult.Expanded [7, 8] else TransformResult.Unchanged

/-- Concrete template for the identity-equality witness computations. -/
def tW : TemplateNumericLiteral := ⟨⟨2, ⟨3, 4⟩, ⟨5, 6⟩⟩, 10⟩

/-- The heap `hW` after the placeholder allocation triggered by reporting
`Removed` on its only node: the original numeric literal plus a fresh
EmptyStatement whose range is the literal's start collapsed to zero width. -/
def hW₂ : Heap :=
  ⟨[⟨NodeKind.NumericLiteral 7, ⟨3, ⟨1, 2⟩, ⟨4, 5⟩⟩⟩,
    ⟨NodeKind.EmptyStatement, ⟨3, ⟨1, 2⟩, ⟨1, 2⟩⟩⟩], []⟩

end Juno

namespace Juno

lemma getD_append_lt {α : Type} (xs ys : List α) (j : Nat) (d : α) (hj : j < xs.length) :
    (xs ++ ys).getD j d = xs.getD j d := by
  induction xs generalizing j with
  | nil => simp at hj
  | cons a xs ih =>
    cases j with
    | zero => rfl
    | succ j => simpa [List.getD] using ih j (by simpa using hj)

lemma getD_append_length {α : Type} (xs ys : List α) (a d : α) :
    (xs ++ a :: ys).getD xs.length d = a := by
  induction xs with
  | nil => rfl
  | cons b xs ih => simpa [List.getD] using ih

lemma runIter_nullptr (h : Heap) (fuel : Nat) : runIter h fuel ⟨none⟩ = [] := by
  cases fuel <;> simp [runIter, NodeListIterator.next]

lemma runIter_step (h : Heap) (fuel p : Nat) (c : NodeListElement)
    (hc : h.cells[p]? = some c) :
    runIter h (fuel + 1) ⟨some p⟩ = c.inner :: runIter h fuel ⟨c.next⟩ := by
  simp [runIter, NodeListIterator.next, hc]

lemma appendListElement_some (h : Heap) (p n : Nat) (c : NodeListElement)
    (hc : h.cells[p]? = some c) :
    h.appendListElement (some p) n =
      ({ h with
          cells := (h.cells ++ [(⟨n, none⟩ : NodeListElement)]).set p
            ⟨c.inner, some h.cells.length⟩ },
        h.cells.length) := by
  have hlt : p < h.cells.length := (List.getElem?_eq_some_iff.mp hc).1
  simp [Heap.appendListElement, List.getElem?_append_left hlt, hc]

end Juno

namespace Juno

lemma fromIterAux_spec (ns : List Nat) :
    ∀ (h : Heap) (prev : Nat) (c : NodeListElement),
      h.cells[prev]? = some c → c.next = none →
      (NodeList.fromIterAux h prev ns).nodes = h.nodes ∧
      (NodeList.fromIterAux h prev ns).cells.length = h.cells.length + ns.length ∧
      (∀ j, j < h.cells.length → j ≠ prev →
        (NodeList.fromIterAux h prev ns).cells[j]? = h.cells[j]?) ∧
      (∀ fuel, ns.length + 1 ≤ fuel →
        runIter (NodeList.fromIterAux h prev ns) fuel ⟨some prev⟩ = c.inner :: ns) := by
  induction ns with
  | nil =>
    intro h prev c hc hnext
    refine ⟨rfl, by simp [NodeList.fromIterAux], fun j _ _ => rfl, ?_⟩
    intro fuel hfuel
    obtain ⟨f, rfl⟩ : ∃ f, fuel = f + 1 := ⟨fuel - 1, by omega⟩
    simp [NodeList.fromIterAux, runIter_step _ _ _ _ hc, hnext, runIter_nullptr]
  | cons n rest ih =>
    intro h prev c hc hnext
    have hlt : prev < h.cells.length := (List.getElem?_eq_some_iff.mp hc).1
    have happ := appendListElement_some h prev n c hc
    set h₁ : Heap :=
      { h with
        cells := (h.cells ++ [(⟨n, none⟩ : NodeListElement)]).set prev
          ⟨c.inner, some h.cells.length⟩ } with hh₁
    set idx := h.cells.length with hidx
    have hunfold : NodeList.fromIterAux h prev (n :: rest) = NodeList.fromIterAux h₁ idx rest := by
      simp [NodeList.fromIterAux, happ]
    have hlen₁ : h₁.cells.length = h.cells.length + 1 := by
      simp [hh₁]
    have hne : prev ≠ idx := by omega
    have hcell_idx : h₁.cells[idx]? = some ⟨n, none⟩ := by
      rw [hh₁]
      simp only []
      rw [List.getElem?_set_ne (by omega)]
      exact List.getElem?_concat_length _ _
    have hcell_prev : h₁.cells[prev]? = some ⟨c.inner, some idx⟩ := by
      rw [hh₁]
      simp only []
      exact List.getElem?_set_self (by simp; omega)
    have hframe₁ : ∀ j, j < h.cells.length → j ≠ prev → h₁.cells[j]? = h.cells[j]? := by
      intro j hj hjp
      rw [hh₁]
      simp only []
      rw [List.getElem?_set_ne (fun hEq => hjp hEq.symm), List.getElem?_append_left hj]
    obtain ⟨ihnodes, ihlen, ihframe, ihrun⟩ := ih h₁ idx ⟨n, none⟩ hcell_idx rfl
    refine ⟨?_, ?_, ?_, ?_⟩
    · rw [hunfold, ihnodes, hh₁]
    · rw [hunfold, ihlen, hlen₁]
      simp
      omega
    · intro j hj hjp
      rw [hunfold, ihframe j (by omega) (by omega), hframe₁ j hj hjp]
    · intro fuel hfuel
      obtain ⟨f, rfl⟩ : ∃ f, fuel = f + 1 := ⟨fuel - 1, by omega⟩
      rw [hunfold]
      have hprev₂ : (NodeList.fromIterAux h₁ idx rest).cells[prev]? =
          some ⟨c.inner, some idx⟩ := by
        rw [ihframe prev (by omega) hne, hcell_prev]
      rw [runIter_step _ _ _ _ hprev₂]
      simp only []
      rw [ihrun f (by simp only [List.length_cons] at hfuel; omega)]

end Juno

namespace Juno

lemma fromIter_spec (h : Heap) (ns : List Nat) :
    (NodeList.fromIter h ns).2.nodes = h.nodes ∧
    (NodeList.fromIter h ns).2.cells.length = h.cells.length + ns.length ∧
    (∀ fuel, ns.length ≤ fuel →
      runIter (NodeList.fromIter h ns).2 fuel (NodeList.iter (NodeList.fromIter h ns).1) = ns) ∧
    NodeList.toList (NodeList.fromIter h ns).2 (NodeList.fromIter h ns).1 = ns := by
  cases ns with
  | nil =>
    refine ⟨rfl, by simp [NodeList.fromIter], ?_, ?_⟩
    · intro fuel _
      simp [NodeList.fromIter, NodeList.iter, runIter_nullptr]
    · simp [NodeList.fromIter, NodeList.toList, NodeList.iter, runIter_nullptr]
  | cons first rest =>
    have happ : h.appendListElement none first =
        ({ h with cells := h.cells ++ [(⟨first, none⟩ : NodeListElement)] },
          h.cells.length) := by
      simp [Heap.appendListElement]
    set h₁ : Heap := { h with cells := h.cells ++ [(⟨first, none⟩ : NodeListElement)] } with hh₁
    set idx := h.cells.length with hidx
    have hunfold : NodeList.fromIter h (first :: rest) =
        (⟨some idx⟩, NodeList.fromIterAux h₁ idx rest) := by
      simp [NodeList.fromIter, happ]
    have hcell : h₁.cells[idx]? = some ⟨first, none⟩ := by
      rw [hh₁]
      exact List.getElem?_concat_length _ _
    obtain ⟨ihnodes, ihlen, _, ihrun⟩ := fromIterAux_spec rest h₁ idx ⟨first, none⟩ hcell rfl
    have hlen : (NodeList.fromIterAux h₁ idx rest).cells.length =
        h.cells.length + (rest.length + 1) := by
      rw [ihlen, hh₁]
      simp
      omega
    have hrunAll : ∀ fuel, rest.length + 1 ≤ fuel →
        runIter (NodeList.fromIterAux h₁ idx rest) fuel ⟨some idx⟩ = first :: rest := by
      intro fuel hfuel
      exact ihrun fuel hfuel
    refine ⟨?_, ?_, ?_, ?_⟩
    · rw [hunfold]
      simp only []
      rw [ihnodes, hh₁]
    · rw [hunfold]
      simp only [List.length_cons]
      omega
    · intro fuel hfuel
      rw [hunfold]
      simp only [NodeList.iter]
      exact hrunAll fuel (by simp only [List.length_cons] at hfuel; omega)
    · rw [hunfold]
      simp only [NodeList.toList, NodeList.iter]
      exact hrunAll _ (by omega)

end Juno

namespace Juno

lemma scanPhase_all_unchanged {σ : Type} (vis : VisitorMut σ) (p : Path) :
    ∀ (elems : List Nat) (s : σ) (pre : List Nat),
      (∀ s₂ e, e ∈ elems → (vis s₂ e (some p)).2 = TransformResult.Unchanged) →
      ∃ sf, scanPhase vis p s elems pre = (sf, none) := by
  intro elems
  induction elems with
  | nil => intro s pre _; exact ⟨s, rfl⟩
  | cons e rest ih =>
    intro s pre hall
    have hv : vis s e (some p) = ((vis s e (some p)).1, TransformResult.Unchanged) := by
      rw [← hall s e (List.mem_cons_self e rest)]
    obtain ⟨sf, hsf⟩ := ih (vis s e (some p)).1 (pre ++ [e])
      (fun s₂ x hx => hall s₂ x (List.mem_cons_of_mem _ hx))
    refine ⟨sf, ?_⟩
    rw [scanPhase, hv]
    exact hsf

lemma fillPhase_stateless (vis : Nat → TransformResult Nat) (p : Path) :
    ∀ elems : List Nat, fillPhase (statelessVis vis) p () elems = ((), spliceSpec vis elems) := by
  intro elems
  induction elems with
  | nil => rfl
  | cons e rest ih =>
    rw [fillPhase, spliceSpec]
    simp only [statelessVis]
    cases hv : vis e <;> simp [hv, ih]

lemma scanPhase_stateless (vis : Nat → TransformResult Nat) (p : Path) :
    ∀ (elems : List Nat) (pre : List Nat),
      (∃ e, e ∈ elems ∧ vis e ≠ TransformResult.Unchanged) →
      scanPhase (statelessVis vis) p () elems pre =
        ((), some (pre ++ spliceSpec vis elems)) := by
  intro elems
  induction elems with
  | nil =>
    intro pre h
    obtain ⟨e, he, _⟩ := h
    exact absurd he (List.not_mem_nil e)
  | cons e rest ih =>
    intro pre hex
    rw [scanPhase, spliceSpec]
    simp only [statelessVis]
    cases hv : vis e with
    | Unchanged =>
      have hex₂ : ∃ x, x ∈ rest ∧ vis x ≠ TransformResult.Unchanged := by
        obtain ⟨x, hx, hxu⟩ := hex
        rcases List.mem_cons.mp hx with hxe | hxr
        · exact absurd (hxe ▸ hv) hxu
        · exact ⟨x, hxr, hxu⟩
      simp only []
      rw [ih (pre ++ [e]) hex₂]
      simp [hv]
    | Removed => simp [hv, fillPhase_stateless]
    | Changed n => simp [hv, fillPhase_stateless]
    | Expanded ns => simp [hv, fillPhase_stateless]

lemma visitChildMut_stateless_changed (h : Heap) (l : NodeList) (p : Path)
    (vis : Nat → TransformResult Nat)
    (hex : ∃ e, e ∈ l.toList h ∧ vis e ≠ TransformResult.Unchanged) :
    ∃ l₂ h₂, NodeList.visitChildMut h (statelessVis vis) () l p =
        ((), TransformResult.Changed l₂, h₂) ∧
      l₂.toList h₂ = spliceSpec vis (l.toList h) ∧
      h₂.nodes = h.nodes := by
  have hscan := scanPhase_stateless vis p (l.toList h) [] hex
  obtain ⟨hnodes, _, _, htl⟩ := fromIter_spec h (spliceSpec vis (l.toList h))
  refine ⟨(NodeList.fromIter h (spliceSpec vis (l.toList h))).1,
    (NodeList.fromIter h (spliceSpec vis (l.toList h))).2, ?_, htl, hnodes⟩
  rw [NodeList.visitChildMut, hscan]
  simp

end Juno

namespace Juno

lemma getNode_append_at (ns : List NodeData) (d : NodeData) (cs : List NodeListElement) :
    Heap.getNode ⟨ns ++ [d], cs⟩ ns.length = d := by
  simp only [Heap.getNode]
  exact getD_append_length ns [] d _

lemma getNode_append_lt (ns : List NodeData) (d : NodeData) (cs : List NodeListElement)
    (j : Nat) (hj : j < ns.length) :
    Heap.getNode ⟨ns ++ [d], cs⟩ j = Heap.getNode ⟨ns, cs⟩ j := by
  simp only [Heap.getNode]
  exact getD_append_lt ns [d] j _ hj

/-- C1: for a required (non-optional) single-child field, a mutating visit in
which the visitor reports `Removed` for the child replaces the field with a
newly built EmptyStatement placeholder (a fresh allocation at the next free
node index) whose range has the original child's file, starts at the original
child's range start and ends at that same start (zero width), with every
pre-existing node untouched; `Changed` and `Unchanged` visitor results
propagate to the field directly (lib.rs 646-670). -/
theorem required_child_removed_becomes_placeholder {σ : Type} (h : Heap) (vis : VisitorMut σ)
    (s : σ) (c : Nat) (p : Path) :
    (∀ s₂, vis s c (some p) = (s₂, TransformResult.Removed) →
      ∃ r h₂, visitChildMutNode h vis s c p = (s₂, TransformResult.Changed r, h₂) ∧
        r = h.nodes.length ∧
        h₂.nodes.length = h.nodes.length + 1 ∧
        (h₂.getNode r).kind = NodeKind.EmptyStatement ∧
        (h₂.getNode r).range.file = (h.getNode c).range.file ∧
        (h₂.getNode r).range.start = (h.getNode c).range.start ∧
        (h₂.getNode r).range.endLoc = (h.getNode c).range.start ∧
        (∀ j, j < h.nodes.length → h₂.getNode j = h.getNode j) ∧
        h₂.cells = h.cells) ∧
    (∀ s₂ n, vis s c (some p) = (s₂, TransformResult.Changed n) →
      visitChildMutNode h vis s c p = (s₂, TransformResult.Changed n, h)) ∧
    (∀ s₂, vis s c (some p) = (s₂, TransformResult.Unchanged) →
      visitChildMutNode h vis s c p = (s₂, TransformResult.Unchanged, h)) := by
  refine ⟨?_, ?_, ?_⟩
  · intro s₂ hv
    refine ⟨h.nodes.length,
      { h with nodes := h.nodes ++ [⟨NodeKind.EmptyStatement,
          ⟨(h.getNode c).range.file, (h.getNode c).range.start, (h.getNode c).range.start⟩⟩] },
      ?_, rfl, by simp, ?_, ?_, ?_, ?_, ?_, rfl⟩
    · simp [visitChildMutNode, hv, buildEmptyStatement, Heap.allocNode]
    · rw [getNode_append_at]
    · rw [getNode_append_at]
    · rw [getNode_append_at]
    · rw [getNode_append_at]
    · intro j hj
      exact getNode_append_lt h.nodes _ h.cells j hj
  · intro s₂ n hv
    simp [visitChildMutNode, hv]
  · intro s₂ hv
    simp [visitChildMutNode, hv]

/-- Witness for C1: on a one-node heap with a visitor that reports `Removed`,
the required-child visit yields a fresh zero-width EmptyStatement placeholder
anchored at the original child's start. -/
theorem required_child_removed_becomes_placeholder_witness :
    visRemoveW () 0 (some pW) = ((), TransformResult.Removed) ∧
    (∃ r h₂, visitChildMutNode hW visRemoveW () 0 pW = ((), TransformResult.Changed r, h₂) ∧
      r = hW.nodes.length ∧
      h₂.nodes.length = hW.nodes.length + 1 ∧
      (h₂.getNode r).kind = NodeKind.EmptyStatement ∧
      (h₂.getNode r).range.file = (hW.getNode 0).range.file ∧
      (h₂.getNode r).range.start = (hW.getNode 0).range.start ∧
      (h₂.getNode r).range.endLoc = (hW.getNode 0).range.start ∧
      (∀ j, j < hW.nodes.length → h₂.getNode j = hW.getNode j) ∧
      h₂.cells = hW.cells) :=
  ⟨rfl, (required_child_removed_becomes_placeholder hW visRemoveW () 0 pW).1 () rfl⟩

/-- C2 counterexample: the claim says a visitor returning `Expanded` on a
required single-child reference is a fatal error, never propagated as a
normal result.  But the required-child visit_child_mut (lib.rs 646-670) has
no panic arm: its catch-all `result => result` returns `Expanded` unchanged.
At this concrete input the visit returns the ordinary, non-fatal result
`Expanded([1, 2])` with the heap untouched. -/
theorem expanded_required_child_propagates_counterexample :
    visitChildMutNode hW visExpandW () 0 pW = ((), TransformResult.Expanded [1, 2], hW) := rfl

/-- C2 amended: for an *optional* single-child field a visitor result of
`Expanded` is fatal (the panic at lib.rs 624-626, modelled as `none`), but
for a *required* single-child reference visit_child_mut does not intercept
`Expanded`: it propagates `Expanded(vs)` unchanged to its caller as an
ordinary `TransformResult` (lib.rs 668: `result => result`). -/
theorem expanded_single_child_amended {σ : Type} (h : Heap) (vis : VisitorMut σ) (s : σ)
    (p : Path) :
    (∀ inner s₂ ns, vis s inner (some p) = (s₂, TransformResult.Expanded ns) →
      visitChildMutOptNode h vis s (some inner) p = none) ∧
    (∀ c s₂ ns, vis s c (some p) = (s₂, TransformResult.Expanded ns) →
      visitChildMutNode h vis s c p = (s₂, TransformResult.Expanded ns, h)) := by
  have hreq : ∀ c s₂ ns, vis s c (some p) = (s₂, TransformResult.Expanded ns) →
      visitChildMutNode h vis s c p = (s₂, TransformResult.Expanded ns, h) := by
    intro c s₂ ns hv
    simp [visitChildMutNode, hv]
  refine ⟨?_, hreq⟩
  intro inner s₂ ns hv
  simp [visitChildMutOptNode, hreq inner s₂ ns hv]

/-- Witness for the C2 amended claim: on a one-node heap with a visitor that
reports `Expanded([1, 2])`, the optional-child visit panics while the
required-child visit propagates the result. -/
theorem expanded_single_child_amended_witness :
    visExpandW () 0 (some pW) = ((), TransformResult.Expanded [1, 2]) ∧
    visitChildMutOptNode hW visExpandW () (some 0) pW = none ∧
    visitChildMutNode hW visExpandW () 0 pW = ((), TransformResult.Expanded [1, 2], hW) :=
  ⟨rfl, (expanded_single_child_amended hW visExpandW () pW).1 0 () [1, 2] rfl,
    (expanded_single_child_amended hW visExpandW () pW).2 0 () [1, 2] rfl⟩

/-- C5: the root-level mutating driver Node::visit_mut (lib.rs 412-426)
returns the original root (the same reference) on `Unchanged`, absence on
`Removed` (no placeholder), exactly the replacement on `Changed`, and panics
on `Expanded` (modelled as `none`). -/
theorem root_visit_mut_behavior {σ : Type} (vis : VisitorMut σ) (s : σ) (n : Nat)
    (p : Option Path) :
    (∀ s₂, vis s n p = (s₂, TransformResult.Unchanged) →
      Node.visitMut vis s n p = some (s₂, some n)) ∧
    (∀ s₂, vis s n p = (s₂, TransformResult.Removed) →
      Node.visitMut vis s n p = some (s₂, none)) ∧
    (∀ s₂ m, vis s n p = (s₂, TransformResult.Changed m) →
      Node.visitMut vis s n p = some (s₂, some m)) ∧
    (∀ s₂ ms, vis s n p = (s₂, TransformResult.Expanded ms) →
      Node.visitMut vis s n p = none) := by
  refine ⟨?_, ?_, ?_, ?_⟩
  · intro s₂ hv
    simp [Node.visitMut, hv]
  · intro s₂ hv
    simp [Node.visitMut, hv]
  · intro s₂ m hv
    simp [Node.visitMut, hv]
  · intro s₂ ms hv
    simp [Node.visitMut, hv]

/-- Witness for C5: an always-`Unchanged` visitor returns the original root;
an always-`Expanded` visitor panics at the root. -/
theorem root_visit_mut_behavior_witness :
    visKeepW () 0 none = ((), TransformResult.Unchanged) ∧
    Node.visitMut visKeepW () 0 none = some ((), some 0) ∧
    visExpandW () 0 none = ((), TransformResult.Expanded [1, 2]) ∧
    Node.visitMut visExpandW () 0 none = none :=
  ⟨rfl, (root_visit_mut_behavior visKeepW () 0 none).1 () rfl, rfl,
    (root_visit_mut_behavior visExpandW () 0 none).2.2.2 () [1, 2] rfl⟩

end Juno

namespace Juno

/-- C3: for a Child List [a, b, c], a mutating visit whose visitor expands b
to [x, y] and leaves a and c unchanged reports `Changed` with a new list
whose elements are exactly [a, x, y, c] in order, the a and c entries being
the identical node references (and no node allocation at all: the node store
is untouched, only fresh list cells are built); more generally, whenever some
element reports a non-`Unchanged` outcome, the rebuilt list's element
sequence equals the spec's splice semantics — `Expanded(vs)` spliced in
place, `Removed` dropped, `Changed(n)` substituted (lib.rs 686-732). -/
theorem list_splice_correct :
    (∀ (h : Heap) (l : NodeList) (p : Path) (vis : Nat → TransformResult Nat) (a b c x y : Nat),
      l.toList h = [a, b, c] →
      vis a = TransformResult.Unchanged →
      vis b = TransformResult.Expanded [x, y] →
      vis c = TransformResult.Unchanged →
      ∃ l₂ h₂, NodeList.visitChildMut h (statelessVis vis) () l p =
          ((), TransformResult.Changed l₂, h₂) ∧
        l₂.toList h₂ = [a, x, y, c] ∧
        h₂.nodes = h.nodes) ∧
    (∀ (h : Heap) (l : NodeList) (p : Path) (vis : Nat → TransformResult Nat),
      (∃ e, e ∈ l.toList h ∧ vis e ≠ TransformResult.Unchanged) →
      ∃ l₂ h₂, NodeList.visitChildMut h (statelessVis vis) () l p =
          ((), TransformResult.Changed l₂, h₂) ∧
        l₂.toList h₂ = spliceSpec vis (l.toList h) ∧
        h₂.nodes = h.nodes) := by
  have general : ∀ (h : Heap) (l : NodeList) (p : Path) (vis : Nat → TransformResult Nat),
      (∃ e, e ∈ l.toList h ∧ vis e ≠ TransformResult.Unchanged) →
      ∃ l₂ h₂, NodeList.visitChildMut h (statelessVis vis) () l p =
          ((), TransformResult.Changed l₂, h₂) ∧
        l₂.toList h₂ = spliceSpec vis (l.toList h) ∧
        h₂.nodes = h.nodes := fun h l p vis hex => visitChildMut_stateless_changed h l p vis hex
  refine ⟨?_, general⟩
  intro h l p vis a b c x y htl hva hvb hvc
  obtain ⟨l₂, h₂, heq, htl₂, hn⟩ := general h l p vis
    ⟨b, by rw [htl]; simp, by rw [hvb]; simp⟩
  refine ⟨l₂, h₂, heq, ?_, hn⟩
  rw [htl₂, htl]
  simp [spliceSpec, hva, hvb, hvc]

/-- Witness for C3: the list [1, 2, 3] with element 2 expanded to [7, 8]
rebuilds to [1, 7, 8, 3] with no node allocation. -/
theorem list_splice_correct_witness :
    lC3.toList hC3 = [1, 2, 3] ∧
    (∃ l₂ h₂, NodeList.visitChildMut hC3 (statelessVis visSpliceW) () lC3 pW =
        ((), TransformResult.Changed l₂, h₂) ∧
      l₂.toList h₂ = [1, 7, 8, 3] ∧
      h₂.nodes = hC3.nodes) :=
  ⟨rfl, list_splice_correct.1 hC3 lC3 pW visSpliceW 1 2 3 7 8 rfl rfl rfl rfl⟩

/-- C4: a mutating visit of a Child List whose visitor reports `Unchanged`
for every element reports the field `Unchanged` and returns the heap exactly
as it was — no allocation, no list rebuilding, the original list (same head,
same cells) stays in place (lib.rs 693-701, 731). -/
theorem list_noop_traversal_allocation_free {σ : Type} (h : Heap) (vis : VisitorMut σ)
    (s : σ) (l : NodeList) (p : Path)
    (hall : ∀ s₂ e, e ∈ l.toList h → (vis s₂ e (some p)).2 = TransformResult.Unchanged) :
    ∃ sf, NodeList.visitChildMut h vis s l p = (sf, TransformResult.Unchanged, h) := by
  obtain ⟨sf, hsf⟩ := scanPhase_all_unchanged vis p (l.toList h) s [] hall
  refine ⟨sf, ?_⟩
  rw [NodeList.visitChildMut, hsf]

/-- Witness for C4: an always-`Unchanged` visitor over the three-element list
leaves result and heap identical. -/
theorem list_noop_traversal_allocation_free_witness :
    ∃ sf, NodeList.visitChildMut hC3 visKeepW () lC3 pW =
      (sf, TransformResult.Unchanged, hC3) :=
  list_noop_traversal_allocation_free hC3 visKeepW () lC3 pW (fun _ _ _ => rfl)

/-- C6: building a Child List from any finite sequence [n1..nk] via
from_iter and then iterating yields exactly [n1..nk] in order; iteration is
restartable (any two sufficiently fuelled runs from the stored head agree);
empty input yields the empty list (lib.rs 194-217, 259-274). -/
theorem from_iter_preserves_order (h : Heap) (ns : List Nat) :
    NodeList.toList (NodeList.fromIter h ns).2 (NodeList.fromIter h ns).1 = ns ∧
    (∀ fuel₁ fuel₂,
      (NodeList.fromIter h ns).2.cells.length ≤ fuel₁ →
      (NodeList.fromIter h ns).2.cells.length ≤ fuel₂ →
      runIter (NodeList.fromIter h ns).2 fuel₁ (NodeList.iter (NodeList.fromIter h ns).1) =
        runIter (NodeList.fromIter h ns).2 fuel₂ (NodeList.iter (NodeList.fromIter h ns).1)) ∧
    (ns = [] → (NodeList.fromIter h ns).1 = ⟨none⟩) := by
  obtain ⟨hnodes, hlen, hrun, htl⟩ := fromIter_spec h ns
  refine ⟨htl, ?_, ?_⟩
  · intro f₁ f₂ hf₁ hf₂
    rw [hrun f₁ (by omega), hrun f₂ (by omega)]
  · intro hns
    subst hns
    rfl

/-- Witness for C6: from_iter over [4, 5] iterates back to [4, 5] under two
different fuels, and the empty input builds the empty list. -/
theorem from_iter_preserves_order_witness :
    NodeList.toList (NodeList.fromIter hW [4, 5]).2 (NodeList.fromIter hW [4, 5]).1 = [4, 5] ∧
    runIter (NodeList.fromIter hW [4, 5]).2 2 (NodeList.iter (NodeList.fromIter hW [4, 5]).1) =
      runIter (NodeList.fromIter hW [4, 5]).2 3
        (NodeList.iter (NodeList.fromIter hW [4, 5]).1) ∧
    (NodeList.fromIter hW []).1 = ⟨none⟩ :=
  ⟨(from_iter_preserves_order hW [4, 5]).1,
    (from_iter_preserves_order hW [4, 5]).2.1 2 3 (by decide) (by decide),
    (from_iter_preserves_order hW []).2.2 rfl⟩

end Juno

namespace Juno

lemma getNode_two_appends (ns : List NodeData) (d : NodeData) (cs : List NodeListElement) :
    Heap.getNode ⟨ns ++ [d] ++ [d], cs⟩ ns.length = d ∧
    Heap.getNode ⟨ns ++ [d] ++ [d], cs⟩ (ns.length + 1) = d := by
  constructor
  · simp only [Heap.getNode]
    rw [getD_append_lt (ns ++ [d]) [d] ns.length _ (by simp)]
    exact getD_append_length ns [] d _
  · simp only [Heap.getNode]
    have hL : ns.length + 1 = (ns ++ [d]).length := by simp
    rw [hL]
    exact getD_append_length (ns ++ [d]) [] d _

/-- C7: node-reference equality and hashing are by identity of the arena
allocation, never by structural value: `nodePtrEq` is exactly allocation
(index) equality and the hash is derived from it alone, and two nodes built
from the same Template under the same Guard are distinct references even
though the stored node data is equal. -/
theorem node_ref_identity_not_structure (h : Heap) (t : TemplateNumericLiteral) :
    (buildNumericLiteral h t).2 ≠ (buildNumericLiteral (buildNumericLiteral h t).1 t).2 ∧
    nodePtrEq (buildNumericLiteral h t).2
      (buildNumericLiteral (buildNumericLiteral h t).1 t).2 = false ∧
    Heap.getNode (buildNumericLiteral (buildNumericLiteral h t).1 t).1
        (buildNumericLiteral h t).2 =
      Heap.getNode (buildNumericLiteral (buildNumericLiteral h t).1 t).1
        (buildNumericLiteral (buildNumericLiteral h t).1 t).2 ∧
    (∀ a b : Nat, nodePtrEq a b = true ↔ a = b) ∧
    (∀ a b : Nat, nodePtrHash a = nodePtrHash b ↔ a = b) := by
  refine ⟨?_, ?_, ?_, ?_, ?_⟩
  · simp [buildNumericLiteral, Heap.allocNode]
  · simp [nodePtrEq, buildNumericLiteral, Heap.allocNode]
  · have hpair := getNode_two_appends h.nodes
      ⟨NodeKind.NumericLiteral t.value, t.range⟩ h.cells
    have hlen : (buildNumericLiteral (buildNumericLiteral h t).1 t).2 = h.nodes.length + 1 := by
      simp [buildNumericLiteral, Heap.allocNode]
    rw [hlen]
    exact hpair.1.trans hpair.2.symm
  · intro a b
    simp [nodePtrEq]
  · intro a b
    simp [nodePtrHash]

/-- Witness for C7: the theorem applied at a concrete heap and template. -/
theorem node_ref_identity_not_structure_witness :
    (buildNumericLiteral hW tW).2 ≠ (buildNumericLiteral (buildNumericLiteral hW tW).1 tW).2 ∧
    nodePtrEq (buildNumericLiteral hW tW).2
      (buildNumericLiteral (buildNumericLiteral hW tW).1 tW).2 = false ∧
    Heap.getNode (buildNumericLiteral (buildNumericLiteral hW tW).1 tW).1
        (buildNumericLiteral hW tW).2 =
      Heap.getNode (buildNumericLiteral (buildNumericLiteral hW tW).1 tW).1
        (buildNumericLiteral (buildNumericLiteral hW tW).1 tW).2 ∧
    (∀ a b : Nat, nodePtrEq a b = true ↔ a = b) ∧
    (∀ a b : Nat, nodePtrHash a = nodePtrHash b ↔ a = b) :=
  node_ref_identity_not_structure hW tW

/-- C8: at most one Guard may be outstanding per thread: acquiring while the
outstanding count is positive fails fast (panics, modelled as `none`),
acquiring when none is outstanding succeeds, and every panic-free run of
acquire/release operations from the idle state keeps the count at most one. -/
theorem guard_single_outstanding :
    (∀ c, 0 < c → guardStep c GuardOp.acquire = none) ∧
    guardStep 0 GuardOp.acquire = some 1 ∧
    (∀ ops c, guardRun 0 ops = some c → c ≤ 1) := by
  refine ⟨?_, rfl, ?_⟩
  · intro c hc
    have hz : c ≠ 0 := by omega
    simp [guardStep, hz]
  · have key : ∀ (ops : List GuardOp) (c₀ : Nat), c₀ ≤ 1 →
        ∀ c, guardRun c₀ ops = some c → c ≤ 1 := by
      intro ops
      induction ops with
      | nil =>
        intro c₀ h₀ c hc
        simp [guardRun] at hc
        omega
      | cons op rest ih =>
        intro c₀ h₀ c hc
        cases op with
        | acquire =>
          by_cases hz : c₀ = 0
          · subst hz
            simp [guardRun, guardStep] at hc
            exact ih 1 (by omega) c hc
          · simp [guardRun, guardStep, hz] at hc
        | release =>
          simp [guardRun, guardStep] at hc
          exact ih (c₀ - 1) (by omega) c hc
    intro ops c hc
    exact key ops 0 (by omega) c hc

/-- Witness for C8: a second acquire panics, a single acquire succeeds and
keeps the count at one. -/
theorem guard_single_outstanding_witness :
    (0 : Nat) < 1 ∧ guardStep 1 GuardOp.acquire = none ∧
    guardRun 0 [GuardOp.acquire] = some 1 ∧ (1 : Nat) ≤ 1 :=
  ⟨by decide, guard_single_outstanding.1 1 (by decide), rfl,
    guard_single_outstanding.2.2 [GuardOp.acquire] 1 rfl⟩

/-- C9 (evaluation at the failing input): visiting a *present optional* child
with a visitor that reports `Removed` does not yield `Changed(None)` as the
claim (and the Option impl's own `Removed => Changed(None)` arm, lib.rs 585
and 622) intends: the inner required-child visit intercepts `Removed` first
and hands back `Changed(placeholder)`, so the field result is
`Changed(Some(fresh EmptyStatement))` — the dead arm is never reached. -/
theorem optional_child_removed_builds_placeholder :
    visitChildMutOptNode hW visRemoveW () (some 0) pW =
      some ((), TransformResult.Changed (some 1), hW₂) ∧
    (∀ h₂ : Heap, visitChildMutOptNode hW visRemoveW () (some 0) pW ≠
      some ((), TransformResult.Changed none, h₂)) := by
  have heq : visitChildMutOptNode hW visRemoveW () (some 0) pW =
      some ((), TransformResult.Changed (some 1), hW₂) := rfl
  refine ⟨heq, ?_⟩
  intro h₂ hcontra
  rw [heq] at hcontra
  simp at hcontra

/-- C10: the Child List observers are mutually consistent for every list
whose head pointer is valid (null or in bounds, as all lists built through
the `GCLock` are): is_empty iff len = 0, head is `None` iff is_empty, head
equals the first element of iteration, and len counts a full iteration
(lib.rs 219-239, 259-274). -/
theorem nodelist_observers_consistent (h : Heap) (l : NodeList)
    (hv : l.head = none ∨ ∃ p, l.head = some p ∧ p < h.cells.length) :
    (l.isEmpty = true ↔ l.len h = 0) ∧
    (l.headNode h = none ↔ l.isEmpty = true) ∧
    l.headNode h = (l.toList h).head? ∧
    l.len h = (l.toList h).length := by
  rcases hv with hnone | ⟨p, hp, hlt⟩
  · have htl : l.toList h = [] := by
      simp [NodeList.toList, NodeList.iter, hnone, runIter_nullptr]
    refine ⟨?_, ?_, ?_, rfl⟩
    · simp [NodeList.isEmpty, hnone, NodeList.len, htl]
    · simp [NodeList.headNode, NodeList.iter, hnone, NodeListIterator.next, NodeList.isEmpty]
    · simp [NodeList.headNode, NodeList.iter, hnone, NodeListIterator.next, htl]
  · obtain ⟨c, hc⟩ : ∃ c, h.cells[p]? = some c :=
      ⟨h.cells[p], List.getElem?_eq_getElem hlt⟩
    obtain ⟨m, hm⟩ : ∃ m, h.cells.length = m + 1 := ⟨h.cells.length - 1, by omega⟩
    have htl : l.toList h = c.inner :: runIter h m ⟨c.next⟩ := by
      simp only [NodeList.toList, NodeList.iter, hp, hm]
      exact runIter_step h m p c hc
    have hne : l.isEmpty = false := by simp [NodeList.isEmpty, hp]
    refine ⟨?_, ?_, ?_, rfl⟩
    · rw [hne]
      simp [NodeList.len, htl]
    · simp [NodeList.headNode, NodeList.iter, hp, NodeListIterator.next, hc, hne]
    · rw [htl]
      simp [NodeList.headNode, NodeList.iter, hp, NodeListIterator.next, hc]

/-- Witness for C10: the observers agree on the concrete three-element list. -/
theorem nodelist_observers_consistent_witness :
    (lC3.isEmpty = true ↔ lC3.len hC3 = 0) ∧
    (lC3.headNode hC3 = none ↔ lC3.isEmpty = true) ∧
    lC3.headNode hC3 = (lC3.toList hC3).head? ∧
    lC3.len hC3 = (lC3.toList hC3).length :=
  nodelist_observers_consistent hC3 lC3 (Or.inr ⟨0, rfl, by decide⟩)

end Juno
